import Mathlib

/-
Verification of the core of z-libs/zrand.h against its specification.

The embedding below translates the C source of zrand.h into Lean:
machine integers become Nat with explicit reduction modulo 2^32 / 2^64
where the C types wrap, signed 32-bit values become Int together with the
two's-complement conversions toNat32 / toInt32 / int32Add, and the two
potentially non-returning spots of the code (the division by a zero span
and the unbounded rejection loops) become an Except with an explicit
error value, the loops being driven by a fuel parameter.

The C global (thread-local) API and the instance API run the same
generator code on one zrand_rng state; both are embedded as functions
taking the state explicitly.
-/

/-- The generator state: struct zrand_rng { uint64_t state; uint64_t inc; }. -/
structure zrand_rng where
  state : Nat
  inc : Nat
deriving DecidableEq

/-- One PCG-XSH-RR step, from zrand__pcg32 in zrand.h:
advances state by the 64-bit LCG and returns the permuted 32-bit output
`(xorshifted >> rot) | (xorshifted << ((-rot) & 31))`. -/
def zrand__pcg32 (rng : zrand_rng) : Nat × zrand_rng :=
  let oldstate := rng.state
  let newstate := (oldstate * 6364136223846793005 + (rng.inc ||| 1)) % 2 ^ 64
  let xorshifted := (((oldstate >>> 18) ^^^ oldstate) >>> 27) % 2 ^ 32
  let rot := (oldstate >>> 59) % 2 ^ 32
  let negrot := (2 ^ 32 - rot) % 2 ^ 32
  (((xorshifted >>> rot) ||| (xorshifted <<< (negrot &&& 31)) % 2 ^ 32) % 2 ^ 32,
    { state := newstate, inc := rng.inc })

/-- zrand_rng_init from zrand.h: inc = (seq << 1) | 1, state = 0,
advance, state += seed, advance.  seed and seq are uint64 parameters,
so they are reduced mod 2^64 on entry. -/
def zrand_rng_init (seed seq : Nat) : zrand_rng :=
  let rng0 : zrand_rng := { state := 0, inc := ((seq % 2 ^ 64) <<< 1) % 2 ^ 64 ||| 1 }
  let rng1 := (zrand__pcg32 rng0).2
  let rng2 : zrand_rng := { rng1 with state := (rng1.state + seed % 2 ^ 64) % 2 ^ 64 }
  (zrand__pcg32 rng2).2

/-- zrand_rng_u32: one draw from an explicit instance. -/
def zrand_rng_u32 (rng : zrand_rng) : Nat × zrand_rng := zrand__pcg32 rng

/-- zrand_u32: one draw from the (thread-local) global instance,
embedded as a function of that instance's state. -/
def zrand_u32 (rng : zrand_rng) : Nat × zrand_rng := zrand__pcg32 rng

/-- zrand_rng_u64: two 32-bit draws concatenated, high half first. -/
def zrand_rng_u64 (rng : zrand_rng) : Nat × zrand_rng :=
  let hi := (zrand__pcg32 rng).1
  let r1 := (zrand__pcg32 rng).2
  let lo := (zrand__pcg32 r1).1
  (((hi <<< 32) ||| lo) % 2 ^ 64, (zrand__pcg32 r1).2)

/-- zrand_u64 on the global instance's state. -/
def zrand_u64 (rng : zrand_rng) : Nat × zrand_rng := zrand_rng_u64 rng

/-- zrand_f32: `(zrand_u32() >> 8) * (1.0f / 16777216.0f)`.
Every float value arising here is an integer below 2^24 scaled by 2^-24,
which IEEE binary32 represents exactly, so the arithmetic is embedded
exactly over the rationals. -/
def zrand_f32 (rng : zrand_rng) : ℚ × zrand_rng :=
  ((((zrand_u32 rng).1 >>> 8 : Nat) : ℚ) * (1 / 16777216), (zrand_u32 rng).2)

/-- zrand_f64: `(zrand_u64() >> 11) * (1.0 / 9007199254740992.0)`, exact
in IEEE binary64 for the same reason, embedded over the rationals. -/
def zrand_f64 (rng : zrand_rng) : ℚ × zrand_rng :=
  ((((zrand_u64 rng).1 >>> 11 : Nat) : ℚ) * (1 / 9007199254740992), (zrand_u64 rng).2)

/-- zrand_rng_f64, the instance variant of zrand_f64. -/
def zrand_rng_f64 (rng : zrand_rng) : ℚ × zrand_rng :=
  ((((zrand_rng_u64 rng).1 >>> 11 : Nat) : ℚ) * (1 / 9007199254740992), (zrand_rng_u64 rng).2)

/-- The C cast (uint32_t)z of a signed value: reduce mod 2^32. -/
def toNat32 (z : Int) : Nat := (z % (4294967296 : Int)).toNat

/-- The C cast (int32_t)n of an unsigned value, two's complement. -/
def toInt32 (n : Nat) : Int :=
  if n % 2 ^ 32 < 2 ^ 31 then ((n % 2 ^ 32 : Nat) : Int)
  else ((n % 2 ^ 32 : Nat) : Int) - 2 ^ 32

/-- 32-bit two's-complement addition (the C `+` on int32_t operands,
modelled with wraparound). -/
def int32Add (a b : Int) : Int := toInt32 ((toNat32 a + toNat32 b) % 2 ^ 32)

/-- Rotate a 32-bit value right by `r` places (mathematical definition:
the low `r` bits move to the top). -/
def rotr32 (x r : Nat) : Nat :=
  x % 2 ^ 32 / 2 ^ (r % 32) + x % 2 ^ 32 % 2 ^ (r % 32) * 2 ^ (32 - r % 32)

/-- The two ways the embedded bounded-range code can fail to return:
the C original divides by zero (UB) where the embedding returns
`divByZero`, and runs its rejection loop for longer than the given fuel
where the embedding returns `outOfFuel`. -/
inductive zrand_err where
  | divByZero
  | outOfFuel
deriving DecidableEq

/-- The do/while rejection loop of zrand_range:
`do { x = zrand_u32(); } while (x >= rejection_limit);`
followed by `return min + (int32_t)(x / bucket_size);`. -/
def zrand_range_loop (mn : Int) (bucket_size rejection_limit : Nat) :
    Nat → zrand_rng → Except zrand_err (Int × zrand_rng)
  | 0, _ => .error .outOfFuel
  | fuel + 1, rng =>
    let x := (zrand_u32 rng).1
    let rng' := (zrand_u32 rng).2
    if rejection_limit ≤ x then zrand_range_loop mn bucket_size rejection_limit fuel rng'
    else .ok (int32Add mn (toInt32 (x / bucket_size)), rng')

/-- zrand_range from zrand.h.  `range = (uint32_t)(max - min) + 1`,
`bucket_size = ((uint32_t)-1) / range` (division by zero when range
wraps to 0), `rejection_limit = bucket_size * range`. -/
def zrand_range (fuel : Nat) (rng : zrand_rng) (mn mx : Int) :
    Except zrand_err (Int × zrand_rng) :=
  if mx ≤ mn then .ok (mn, rng)
  else
    let range := (toNat32 (mx - mn) + 1) % 2 ^ 32
    if range = 0 then .error .divByZero
    else
      let limit : Nat := 2 ^ 32 - 1
      let bucket_size := limit / range
      let rejection_limit := (bucket_size * range) % 2 ^ 32
      zrand_range_loop mn bucket_size rejection_limit fuel rng

/-- The rejection loop of zrand_rng_range, whose condition recomputes
`bucket * range` each iteration. -/
def zrand_rng_range_loop (mn : Int) (bucket range : Nat) :
    Nat → zrand_rng → Except zrand_err (Int × zrand_rng)
  | 0, _ => .error .outOfFuel
  | fuel + 1, rng =>
    let x := (zrand_rng_u32 rng).1
    let rng' := (zrand_rng_u32 rng).2
    if (bucket * range) % 2 ^ 32 ≤ x then zrand_rng_range_loop mn bucket range fuel rng'
    else .ok (int32Add mn (toInt32 (x / bucket)), rng')

/-- zrand_rng_range from zrand.h (the instance variant, textually
separate in the source but running the same algorithm). -/
def zrand_rng_range (fuel : Nat) (rng : zrand_rng) (mn mx : Int) :
    Except zrand_err (Int × zrand_rng) :=
  if mx ≤ mn then .ok (mn, rng)
  else
    let range := (toNat32 (mx - mn) + 1) % 2 ^ 32
    if range = 0 then .error .divByZero
    else zrand_rng_range_loop mn ((2 ^ 32 - 1) / range) range fuel rng

/-- Draw 32-bit values until one is strictly below `limit` (the
acceptance test of the rejection-sampling description in the spec). -/
def drawFirstAccepted (limit : Nat) : Nat → zrand_rng → Except zrand_err (Nat × zrand_rng)
  | 0, _ => .error .outOfFuel
  | fuel + 1, rng =>
    let x := (zrand__pcg32 rng).1
    let rng' := (zrand__pcg32 rng).2
    if x < limit then .ok (x, rng') else drawFirstAccepted limit fuel rng'

/-- The bounded-range algorithm exactly as claim C1 words it:
span = max - min + 1, bucket = 2^32 / span (integer division),
limit = bucket * span, reject draws >= limit, return
min + (first accepted draw) / bucket. -/
def range_claimed (fuel : Nat) (rng : zrand_rng) (mn mx : Int) :
    Except zrand_err (Int × zrand_rng) :=
  if mx ≤ mn then .ok (mn, rng)
  else
    let span := (mx - mn + 1).toNat
    let bucket := 2 ^ 32 / span
    let limit := bucket * span
    (drawFirstAccepted limit fuel rng).map fun p => (mn + (p.1 / bucket : Nat), p.2)

/-- The bounded-range algorithm with the bucket size the code actually
uses: bucket = (2^32 - 1) / span; otherwise word for word the claimed
algorithm (the amended claim C1). -/
def range_ref (fuel : Nat) (rng : zrand_rng) (mn mx : Int) :
    Except zrand_err (Int × zrand_rng) :=
  if mx ≤ mn then .ok (mn, rng)
  else
    let span := (mx - mn + 1).toNat
    let bucket := (2 ^ 32 - 1) / span
    let limit := bucket * span
    (drawFirstAccepted limit fuel rng).map fun p => (mn + (p.1 / bucket : Nat), p.2)

/-- The returned value of a bounded-range call, when there is one. -/
def exceptVal : Except zrand_err (Int × zrand_rng) → Option Int
  | .ok p => some p.1
  | .error _ => none

/-- The four bytes of a uint32 stored to memory, little-endian
(`*(uint32_t*)p = zrand_u32()` in zrand_bytes). -/
def u32_le_bytes (x : Nat) : List Nat :=
  [x % 256, (x >>> 8) % 256, (x >>> 16) % 256, (x >>> 24) % 256]

/-- zrand_bytes: four bytes per draw while at least 4 remain, then the
leading 0-3 bytes of one extra draw. -/
def zrand_bytes : Nat → zrand_rng → List Nat × zrand_rng
  | 0, rng => ([], rng)
  | 1, rng => ((u32_le_bytes (zrand__pcg32 rng).1).take 1, (zrand__pcg32 rng).2)
  | 2, rng => ((u32_le_bytes (zrand__pcg32 rng).1).take 2, (zrand__pcg32 rng).2)
  | 3, rng => ((u32_le_bytes (zrand__pcg32 rng).1).take 3, (zrand__pcg32 rng).2)
  | len + 4, rng =>
    let x := (zrand__pcg32 rng).1
    let r := (zrand__pcg32 rng).2
    (u32_le_bytes x ++ (zrand_bytes len r).1, (zrand_bytes len r).2)

/-- The lowercase hex alphabet `"0123456789abcdef"` of zrand_uuid. -/
def HEXCHARS : List Char := "0123456789abcdef".toList

/-- hex[n] for a nibble n. -/
def hexChar (n : Nat) : Char := HEXCHARS.getD n '0'

/-- The formatting loop of zrand_uuid: for i = 0..15, a hyphen before
bytes 4, 6, 8 and 10, then the two hex digits of byte i. -/
def uuid_fmt : Nat → List Nat → List Char
  | _, [] => []
  | i, v :: rest =>
    (if i = 4 ∨ i = 6 ∨ i = 8 ∨ i = 10 then ['-'] else []) ++
      hexChar ((v >>> 4) &&& 15) :: hexChar (v &&& 15) :: uuid_fmt (i + 1) rest

/-- The version/variant forcing of zrand_uuid:
`b[6] = (b[6] & 0x0F) | 0x40; b[8] = (b[8] & 0x3F) | 0x80;`. -/
def uuid_mask (b : List Nat) : List Nat :=
  (b.set 6 ((b.getD 6 0 &&& 15) ||| 64)).set 8 ((b.getD 8 0 &&& 63) ||| 128)

/-- zrand_uuid: 16 random bytes, version/variant forced, formatted as
8-4-4-4-12 lowercase hex with hyphens, then the NUL terminator. -/
def zrand_uuid (rng : zrand_rng) : List Char × zrand_rng :=
  (uuid_fmt 0 (uuid_mask (zrand_bytes 16 rng).1) ++ [Char.ofNat 0], (zrand_bytes 16 rng).2)

/-- Swap elements i and j of a list (the three memcpy calls of
zrand_shuffle); out-of-range indices leave the list unchanged. -/
def listSwap {α : Type _} (l : List α) (i j : Nat) : List α :=
  match l.get? i, l.get? j with
  | some a, some b => (l.set i b).set j a
  | _, _ => l

/-- The Fisher-Yates loop of zrand_shuffle: for i = nmemb-1 down to 1,
j = zrand_range(0, (int32_t)i), swap unless i == j.  The size_t value
of j is the int32 result reduced mod 2^64. -/
def zrand_shuffle_loop {α : Type _} (fuel : Nat) :
    Nat → List α → zrand_rng → Except zrand_err (List α × zrand_rng)
  | 0, l, rng => .ok (l, rng)
  | i + 1, l, rng =>
    match zrand_range fuel rng 0 (toInt32 ((i + 1) % 2 ^ 32)) with
    | .error e => .error e
    | .ok (j, rng') =>
      let jn := (j % (18446744073709551616 : Int)).toNat
      let l' := if i + 1 = jn then l else listSwap l (i + 1) jn
      zrand_shuffle_loop fuel i l' rng'

/-- zrand_shuffle: immediate return for length <= 1, otherwise the
Fisher-Yates loop.  (The temporary swap buffer of the C code is pure
bookkeeping and allocation is assumed to succeed.) -/
def zrand_shuffle {α : Type _} (fuel : Nat) (l : List α) (rng : zrand_rng) :
    Except zrand_err (List α × zrand_rng) :=
  if l.length ≤ 1 then .ok (l, rng)
  else zrand_shuffle_loop fuel (l.length - 1) l rng

/-- zrand_choice: NULL (here `none`) for an empty sequence, otherwise
the element at index zrand_range(0, (int32_t)nmemb - 1).  The returned
pointer is embedded as the element index. -/
def zrand_choice (fuel : Nat) (rng : zrand_rng) (nmemb : Nat) :
    Except zrand_err (Option Nat × zrand_rng) :=
  if nmemb = 0 then .ok (none, rng)
  else
    match zrand_range fuel rng 0 (toInt32 (nmemb % 2 ^ 32 + 2 ^ 32 - 1)) with
    | .error e => .error e
    | .ok (j, rng') => .ok (some (j % (18446744073709551616 : Int)).toNat, rng')

/- Bit-level helper lemmas. -/

theorem lor_two_pow_mul {a m : Nat} (b : Nat) (h : a < 2 ^ m) :
    a ||| 2 ^ m * b = 2 ^ m * b + a := by
  apply Nat.eq_of_testBit_eq
  intro i
  rw [Nat.testBit_or, Nat.testBit_mul_pow_two_add _ h, Nat.testBit_mul_pow_two]
  by_cases hi : i < m
  · simp [hi, Nat.not_le.mpr hi]
  · have hf : a.testBit i = false := by
      apply Nat.testBit_lt_two_pow
      calc a < 2 ^ m := h
        _ ≤ 2 ^ i := Nat.pow_le_pow_right (by norm_num) (Nat.not_lt.mp hi)
    simp [hi, Nat.not_lt.mp hi, hf]

theorem mod_two_pow_lor_one (x n : Nat) (hn : 0 < n) :
    x % 2 ^ n ||| 1 = (x ||| 1) % 2 ^ n := by
  apply Nat.eq_of_testBit_eq
  intro i
  rw [Nat.testBit_or, Nat.testBit_mod_two_pow, Nat.testBit_mod_two_pow, Nat.testBit_or]
  cases i with
  | zero => simp [hn]
  | succ k =>
    have h1 : Nat.testBit 1 (k + 1) = false := by
      apply Nat.testBit_lt_two_pow
      calc (1 : Nat) < 2 ^ 1 := by norm_num
        _ ≤ 2 ^ (k + 1) := Nat.pow_le_pow_right (by norm_num) (by omega)
    simp [h1, Bool.and_or_distrib_left]

theorem lor_one_mod_two (x : Nat) : (x ||| 1) % 2 = 1 := by
  have h := Nat.mod_two_eq_one_iff_testBit_zero (x := x ||| 1)
  rw [h, Nat.testBit_or]
  simp [Nat.testBit_one_zero]

/- PCG engine lemmas. -/

theorem zrand__pcg32_inc (rng : zrand_rng) : (zrand__pcg32 rng).2.inc = rng.inc := rfl

theorem zrand__pcg32_fst_lt (rng : zrand_rng) : (zrand__pcg32 rng).1 < 2 ^ 32 :=
  Nat.mod_lt _ (by norm_num)

theorem zrand__pcg32_state_lt (rng : zrand_rng) : (zrand__pcg32 rng).2.state < 2 ^ 64 :=
  Nat.mod_lt _ (by norm_num)

theorem rotr32_eq_code {x k : Nat} (hx : x < 2 ^ 32) (hk : k < 32) :
    ((x >>> k) ||| (x <<< ((32 - k) % 32)) % 2 ^ 32) % 2 ^ 32 = rotr32 x k := by
  have hxm : x % 2 ^ 32 = x := Nat.mod_eq_of_lt hx
  have hkm : k % 32 = k := Nat.mod_eq_of_lt hk
  rcases Nat.eq_zero_or_pos k with hk0 | hkpos
  · subst hk0
    have h0 : (32 - 0) % 32 = 0 := by norm_num
    rw [h0, Nat.shiftLeft_zero, Nat.shiftRight_zero, hxm, Nat.or_self, hxm]
    unfold rotr32
    rw [hxm]
    norm_num [Nat.mod_one]
  · have hs : (32 - k) % 32 = 32 - k := Nat.mod_eq_of_lt (by omega)
    rw [hs, Nat.shiftRight_eq_div_pow, Nat.shiftLeft_eq]
    have h32 : (2 : Nat) ^ k * 2 ^ (32 - k) = 2 ^ 32 := by
      rw [← pow_add]; congr 1; omega
    have hkpos2 : 0 < (2 : Nat) ^ k := Nat.pos_pow_of_pos _ (by norm_num)
    have hmlt : x % 2 ^ k < 2 ^ k := Nat.mod_lt _ hkpos2
    have hblt : x % 2 ^ k * 2 ^ (32 - k) < 2 ^ 32 := by
      rw [← h32]
      exact Nat.mul_lt_mul_of_lt_of_le hmlt (le_refl _) (Nat.pos_pow_of_pos _ (by norm_num))
    have hsplit : x * 2 ^ (32 - k) % 2 ^ 32 = x % 2 ^ k * 2 ^ (32 - k) := by
      have hx2 : x * 2 ^ (32 - k) = x % 2 ^ k * 2 ^ (32 - k) + x / 2 ^ k * 2 ^ 32 := by
        rw [← h32]
        conv_lhs => rw [← Nat.div_add_mod x (2 ^ k)]
        ring
      rw [hx2, Nat.add_mul_mod_self_right, Nat.mod_eq_of_lt hblt]
    rw [hsplit]
    have ha : x / 2 ^ k < 2 ^ (32 - k) := by
      apply Nat.div_lt_of_lt_mul
      rw [h32]; exact hx
    rw [mul_comm (x % 2 ^ k) (2 ^ (32 - k)), lor_two_pow_mul _ ha]
    have hble2 : 2 ^ (32 - k) * (x % 2 ^ k) ≤ (2 ^ k - 1) * 2 ^ (32 - k) := by
      rw [mul_comm]; exact Nat.mul_le_mul_right _ (by omega)
    have hexp : ((2 : Nat) ^ k - 1) * 2 ^ (32 - k) = 2 ^ 32 - 2 ^ (32 - k) := by
      rw [Nat.sub_mul, one_mul, h32]
    have hCle : (2 : Nat) ^ (32 - k) ≤ 2 ^ 32 := Nat.pow_le_pow_right (by norm_num) (by omega)
    rw [Nat.mod_eq_of_lt (by omega)]
    unfold rotr32
    rw [hxm, hkm]
    ring

theorem zrand__pcg32_spec (rng : zrand_rng) (hs : rng.state < 2 ^ 64) :
    zrand__pcg32 rng =
      (rotr32 ((((rng.state >>> 18) ^^^ rng.state) >>> 27) % 2 ^ 32) (rng.state >>> 59),
       { state := (rng.state * 6364136223846793005 + (rng.inc ||| 1)) % 2 ^ 64,
         inc := rng.inc }) := by
  have hrot : rng.state >>> 59 < 32 := by
    rw [Nat.shiftRight_eq_div_pow]; omega
  have hrotm : rng.state >>> 59 % 2 ^ 32 = rng.state >>> 59 :=
    Nat.mod_eq_of_lt (by omega)
  unfold zrand__pcg32
  simp only [hrotm]
  have hand : ((2 ^ 32 - rng.state >>> 59) % 2 ^ 32) &&& 31 = (32 - rng.state >>> 59) % 32 := by
    have h31 : (31 : Nat) = 2 ^ 5 - 1 := by norm_num
    rw [h31, Nat.and_pow_two_sub_one_eq_mod]
    omega
  rw [hand]
  rw [rotr32_eq_code (Nat.mod_lt _ (by norm_num)) hrot]

/- int32 cast lemmas. -/

theorem toNat32_lt (z : Int) : toNat32 z < 2 ^ 32 := by
  unfold toNat32; omega

theorem int32Add_exact {a : Int} {q : Nat} (hq : q < 2 ^ 32)
    (h1 : -2 ^ 31 ≤ a) (h2 : a < 2 ^ 31)
    (h3 : -2 ^ 31 ≤ a + q) (h4 : a + q < 2 ^ 31) :
    int32Add a (toInt32 q) = a + q := by
  unfold int32Add toInt32 toNat32
  split_ifs <;> omega

theorem toInt32_choice_arg {nmemb : Nat} (h1 : 0 < nmemb) (h2 : nmemb < 2 ^ 31) :
    toInt32 (nmemb % 2 ^ 32 + 2 ^ 32 - 1) = (nmemb : Int) - 1 := by
  unfold toInt32
  split_ifs <;> omega

/- Initialization lemmas. -/

theorem zrand_rng_init_inc (seed seq : Nat) :
    (zrand_rng_init seed seq).inc = ((seq <<< 1) ||| 1) % 2 ^ 64 := by
  show ((seq % 2 ^ 64) <<< 1) % 2 ^ 64 ||| 1 = ((seq <<< 1) ||| 1) % 2 ^ 64
  rw [Nat.shiftLeft_eq, Nat.shiftLeft_eq, pow_one, Nat.mod_mul_mod]
  exact mod_two_pow_lor_one _ 64 (by norm_num)

theorem zrand_rng_init_inc_odd (seed seq : Nat) :
    (zrand_rng_init seed seq).inc % 2 = 1 := by
  show (((seq % 2 ^ 64) <<< 1) % 2 ^ 64 ||| 1) % 2 = 1
  exact lor_one_mod_two _

/- Bounded-range lemmas. -/

theorem zrand_range_loop_ok {mn : Int} {bucket limit : Nat} {fuel : Nat} {rng rng' : zrand_rng}
    {v : Int} (h : zrand_range_loop mn bucket limit fuel rng = .ok (v, rng')) :
    ∃ x : Nat, x < 2 ^ 32 ∧ x < limit ∧ v = int32Add mn (toInt32 (x / bucket)) := by
  induction fuel generalizing rng with
  | zero => simp [zrand_range_loop] at h
  | succ n ih =>
    simp only [zrand_range_loop] at h
    by_cases hx : limit ≤ (zrand_u32 rng).1
    · rw [if_pos hx] at h
      exact ih h
    · rw [if_neg hx] at h
      simp only [Except.ok.injEq, Prod.mk.injEq] at h
      exact ⟨(zrand_u32 rng).1, zrand__pcg32_fst_lt rng, by omega, h.1.symm⟩

theorem zrand_rng_range_loop_eq (mn : Int) (bucket range : Nat) (fuel : Nat) (rng : zrand_rng) :
    zrand_rng_range_loop mn bucket range fuel rng =
      zrand_range_loop mn bucket ((bucket * range) % 2 ^ 32) fuel rng := by
  induction fuel generalizing rng with
  | zero => rfl
  | succ n ih =>
    simp only [zrand_rng_range_loop, zrand_range_loop, zrand_rng_u32, zrand_u32]
    by_cases hx : (bucket * range) % 2 ^ 32 ≤ (zrand__pcg32 rng).1
    · rw [if_pos hx, if_pos hx]
      exact ih _
    · rw [if_neg hx, if_neg hx]

theorem zrand_rng_range_eq (fuel : Nat) (rng : zrand_rng) (mn mx : Int) :
    zrand_rng_range fuel rng mn mx = zrand_range fuel rng mn mx := by
  simp only [zrand_rng_range, zrand_range]
  by_cases h1 : mx ≤ mn
  · rw [if_pos h1, if_pos h1]
  · rw [if_neg h1, if_neg h1]
    by_cases h2 : (toNat32 (mx - mn) + 1) % 2 ^ 32 = 0
    · rw [if_pos h2, if_pos h2]
    · rw [if_neg h2, if_neg h2]
      exact zrand_rng_range_loop_eq _ _ _ _ _

theorem range_span_eq {mn mx : Int} (h1 : -2 ^ 31 ≤ mn) (h2 : mx ≤ 2 ^ 31 - 1)
    (h3 : mn < mx) (h4 : ¬(mn = -2 ^ 31 ∧ mx = 2 ^ 31 - 1)) :
    (toNat32 (mx - mn) + 1) % 2 ^ 32 = (mx - mn + 1).toNat ∧
    0 < (mx - mn + 1).toNat ∧ (mx - mn + 1).toNat < 2 ^ 32 := by
  unfold toNat32
  omega

theorem range_result_exact {mn mx : Int} {x : Nat} (h1 : -2 ^ 31 ≤ mn) (h2 : mx ≤ 2 ^ 31 - 1)
    (h3 : mn < mx) (h4 : ¬(mn = -2 ^ 31 ∧ mx = 2 ^ 31 - 1))
    (hx : x < (2 ^ 32 - 1) / (mx - mn + 1).toNat * (mx - mn + 1).toNat) :
    int32Add mn (toInt32 (x / ((2 ^ 32 - 1) / (mx - mn + 1).toNat))) =
      mn + (x / ((2 ^ 32 - 1) / (mx - mn + 1).toNat) : Nat) ∧
    mn + ((x / ((2 ^ 32 - 1) / (mx - mn + 1).toNat) : Nat) : Int) ≤ mx := by
  obtain ⟨hspan, hpos, hlt⟩ := range_span_eq h1 h2 h3 h4
  set span := (mx - mn + 1).toNat with hs
  set bucket := (2 ^ 32 - 1) / span with hb
  have hbpos : 0 < bucket := by
    rw [hb]
    exact (Nat.one_le_div_iff hpos).mpr (by omega)
  have hq : x / bucket < span := by
    rw [Nat.div_lt_iff_lt_mul hbpos]
    calc x < bucket * span := hx
      _ = span * bucket := mul_comm _ _
  have hspanInt : (span : Int) = mx - mn + 1 := by
    rw [hs]; exact Int.toNat_of_nonneg (by omega)
  have hqle : ((x / bucket : Nat) : Int) ≤ mx - mn := by
    have hcast : ((x / bucket : Nat) : Int) < (span : Int) := by exact_mod_cast hq
    omega
  have hg0 : (0 : Int) ≤ ((x / bucket : Nat) : Int) := Int.ofNat_nonneg _
  have hq32 : x / bucket < 2 ^ 32 := by omega
  refine ⟨int32Add_exact hq32 h1 (by omega) (by omega) (by omega), by omega⟩

theorem zrand_range_ok_bounds {fuel : Nat} {rng rng' : zrand_rng} {mn mx v : Int}
    (h1 : -2 ^ 31 ≤ mn) (h2 : mx ≤ 2 ^ 31 - 1) (h3 : mn ≤ mx)
    (h4 : ¬(mn = -2 ^ 31 ∧ mx = 2 ^ 31 - 1))
    (h : zrand_range fuel rng mn mx = .ok (v, rng')) : mn ≤ v ∧ v ≤ mx := by
  simp only [zrand_range] at h
  by_cases hle : mx ≤ mn
  · rw [if_pos hle] at h
    simp only [Except.ok.injEq, Prod.mk.injEq] at h
    obtain ⟨hv, -⟩ := h
    omega
  · rw [if_neg hle] at h
    have h3' : mn < mx := by omega
    obtain ⟨hspan, hpos, hlt⟩ := range_span_eq h1 h2 h3' h4
    rw [hspan, if_neg (by omega)] at h
    obtain ⟨x, hx32, hxlim, hv⟩ := zrand_range_loop_ok h
    have hmul : (2 ^ 32 - 1) / (mx - mn + 1).toNat * (mx - mn + 1).toNat ≤ 2 ^ 32 - 1 :=
      Nat.div_mul_le_self _ _
    rw [Nat.mod_eq_of_lt (by omega)] at hxlim
    obtain ⟨heq, hle2⟩ := range_result_exact h1 h2 h3' h4 hxlim
    subst hv
    rw [heq]
    have hq0 : (0 : Int) ≤ ((x / ((2 ^ 32 - 1) / (mx - mn + 1).toNat) : Nat) : Int) :=
      Int.ofNat_nonneg _
    exact ⟨by omega, hle2⟩

theorem zrand_range_loop_eq_ref {mn : Int} {bucket limit : Nat}
    (hres : ∀ x : Nat, x < limit → int32Add mn (toInt32 (x / bucket)) = mn + (x / bucket : Nat)) :
    ∀ (fuel : Nat) (rng : zrand_rng),
      zrand_range_loop mn bucket limit fuel rng =
        (drawFirstAccepted limit fuel rng).map (fun p => (mn + (p.1 / bucket : Nat), p.2)) := by
  intro fuel
  induction fuel with
  | zero => intro rng; rfl
  | succ n ih =>
    intro rng
    simp only [zrand_range_loop, drawFirstAccepted, zrand_u32]
    by_cases hx : limit ≤ (zrand__pcg32 rng).1
    · rw [if_pos hx, if_neg (by omega)]
      exact ih _
    · rw [if_neg hx, if_pos (by omega)]
      rw [hres _ (by omega)]
      rfl

theorem zrand_range_eq_ref {fuel : Nat} {rng : zrand_rng} {mn mx : Int}
    (h1 : -2 ^ 31 ≤ mn) (h2 : mx ≤ 2 ^ 31 - 1) (h3 : mn < mx)
    (h4 : ¬(mn = -2 ^ 31 ∧ mx = 2 ^ 31 - 1)) :
    zrand_range fuel rng mn mx = range_ref fuel rng mn mx := by
  obtain ⟨hspan, hpos, hlt⟩ := range_span_eq h1 h2 h3 h4
  simp only [zrand_range, range_ref]
  rw [if_neg (by omega), if_neg (by omega), hspan, if_neg (by omega)]
  have hmul : (2 ^ 32 - 1) / (mx - mn + 1).toNat * (mx - mn + 1).toNat ≤ 2 ^ 32 - 1 :=
    Nat.div_mul_le_self _ _
  rw [Nat.mod_eq_of_lt (by omega)]
  exact zrand_range_loop_eq_ref (fun x hx => (range_result_exact h1 h2 h3 h4 hx).1) fuel rng

/- UUID formatting lemmas. -/

theorem hexChar_mem_of_lt {n : Nat} (h : n < 16) : hexChar n ∈ HEXCHARS := by
  interval_cases n <;> decide

theorem hexChar_and15_mem (v : Nat) : hexChar (v &&& 15) ∈ HEXCHARS :=
  hexChar_mem_of_lt (Nat.lt_of_le_of_lt Nat.and_le_right (by norm_num))

theorem hexChar_and15_ne_dash (v : Nat) : hexChar (v &&& 15) ≠ '-' := by
  intro h
  have hm := hexChar_and15_mem v
  rw [h] at hm
  exact absurd hm (by decide)

theorem uuid_version_nibble (v : Nat) : ((v &&& 15 ||| 64) >>> 4) &&& 15 = 4 := by
  have h : v &&& 15 < 16 := Nat.lt_of_le_of_lt Nat.and_le_right (by norm_num)
  revert h
  generalize v &&& 15 = m
  intro h
  interval_cases m <;> decide

theorem uuid_variant_nibble (v : Nat) :
    hexChar (((v &&& 63 ||| 128) >>> 4) &&& 15) ∈ (['8', '9', 'a', 'b'] : List Char) := by
  have h : v &&& 63 < 64 := Nat.lt_of_le_of_lt Nat.and_le_right (by norm_num)
  revert h
  generalize v &&& 63 = m
  intro h
  interval_cases m <;> decide

/- Shuffle permutation lemmas. -/

theorem perm_cons_set {α : Type _} (xs : List α) (k : Nat) (a b : α)
    (h : xs.get? k = some b) : (b :: xs.set k a).Perm (a :: xs) := by
  induction xs generalizing k with
  | nil => simp at h
  | cons y t ih =>
    cases k with
    | zero =>
      obtain rfl : y = b := by simpa using h
      exact List.Perm.swap a y t
    | succ k =>
      have ht : t.get? k = some b := by simpa using h
      exact (List.Perm.swap y b _).trans (((ih k ht).cons y).trans (List.Perm.swap a y t))

theorem set_set_perm {α : Type _} {l : List α} {i j : Nat} {a b : α}
    (hi : l.get? i = some a) (hj : l.get? j = some b) :
    ((l.set i b).set j a).Perm l := by
  induction l generalizing i j with
  | nil => simp at hi
  | cons x t ih =>
    cases i with
    | zero =>
      obtain rfl : x = a := by simpa using hi
      cases j with
      | zero =>
        obtain rfl : x = b := by simpa using hj
        exact List.Perm.refl _
      | succ k =>
        have ht : t.get? k = some b := by simpa using hj
        exact perm_cons_set t k x b ht
    | succ m =>
      have hm : t.get? m = some a := by simpa using hi
      cases j with
      | zero =>
        obtain rfl : x = b := by simpa using hj
        exact perm_cons_set t m x a hm
      | succ k =>
        have hk : t.get? k = some b := by simpa using hj
        exact ((ih hm hk).cons x)

theorem listSwap_perm {α : Type _} (l : List α) (i j : Nat) : (listSwap l i j).Perm l := by
  unfold listSwap
  split
  next a b ha hb => exact set_set_perm ha hb
  next => exact List.Perm.refl l

theorem zrand_shuffle_loop_perm {α : Type _} {fuel : Nat} {i : Nat} {l l' : List α}
    {rng rng' : zrand_rng} (h : zrand_shuffle_loop fuel i l rng = .ok (l', rng')) :
    l'.Perm l := by
  induction i generalizing l rng with
  | zero =>
    simp only [zrand_shuffle_loop, Except.ok.injEq, Prod.mk.injEq] at h
    obtain ⟨rfl, rfl⟩ := h
    exact List.Perm.refl _
  | succ n ih =>
    simp only [zrand_shuffle_loop] at h
    cases hr : zrand_range fuel rng 0 (toInt32 ((n + 1) % 2 ^ 32)) with
    | error e => rw [hr] at h; simp at h
    | ok p =>
      obtain ⟨j, r2⟩ := p
      rw [hr] at h
      simp only at h
      have hsub : (if n + 1 = (j % (18446744073709551616 : Int)).toNat then l
          else listSwap l (n + 1) (j % (18446744073709551616 : Int)).toNat).Perm l := by
        split
        · exact List.Perm.refl l
        · exact listSwap_perm l _ _
      exact (ih h).trans hsub

theorem uuid_fmt_props (b : Nat → Nat) :
    let u := uuid_fmt 0 [b 0, b 1, b 2, b 3, b 4, b 5, b 6 &&& 15 ||| 64, b 7,
        b 8 &&& 63 ||| 128, b 9, b 10, b 11, b 12, b 13, b 14, b 15] ++ [Char.ofNat 0]
    u.length = 37 ∧ u.getD 36 ' ' = Char.ofNat 0 ∧ u.getD 14 ' ' = '4' ∧
    u.getD 19 ' ' ∈ (['8', '9', 'a', 'b'] : List Char) ∧
    ∀ j : Nat, j < 36 → ((u.getD j ' ' = '-' ↔ (j = 8 ∨ j = 13 ∨ j = 18 ∨ j = 23)) ∧
      (u.getD j ' ' = '-' ∨ u.getD j ' ' ∈ HEXCHARS)) := by
  intro u
  refine ⟨rfl, rfl, ?_, ?_, ?_⟩
  · show hexChar (((b 6 &&& 15 ||| 64) >>> 4) &&& 15) = '4'
    rw [uuid_version_nibble]
    rfl
  · exact uuid_variant_nibble (b 8)
  · intro j hj
    interval_cases j <;>
      first
        | exact ⟨⟨fun _ => by decide, fun _ => rfl⟩, Or.inl rfl⟩
        | exact ⟨⟨fun h => absurd h (hexChar_and15_ne_dash _), fun h => absurd h (by decide)⟩,
            Or.inr (hexChar_and15_mem _)⟩

/- Float helper lemmas. -/

theorem zrand_u64_fst_lt (rng : zrand_rng) : (zrand_u64 rng).1 < 2 ^ 64 :=
  Nat.mod_lt _ (by norm_num)

theorem scaled_unit_interval {x : Nat} (d : Nat) (hd : 0 < d) (h : x < d) :
    0 ≤ (x : ℚ) * (1 / (d : ℚ)) ∧ (x : ℚ) * (1 / (d : ℚ)) < 1 := by
  have hdq : (0 : ℚ) < (d : ℚ) := by exact_mod_cast hd
  have hxq : (x : ℚ) < (d : ℚ) := by exact_mod_cast h
  refine ⟨by positivity, ?_⟩
  rw [mul_one_div]
  exact (div_lt_one hdq).mpr hxq

/- Claim theorems. -/

/-- C1, counterexample: at min = 0, max = 2^31 - 1 and a concrete generator
state, zrand_range and zrand_rng_range return a different value than the
algorithm exactly as the claim words it (bucket = 2^32 / span), so the
operations do not follow that algorithm. -/
theorem claim_C1_counterexample :
    exceptVal (zrand_range 10 ⟨7009800821677620407, 3⟩ 0 2147483647) = some 361947764 ∧
    exceptVal (zrand_rng_range 10 ⟨7009800821677620407, 3⟩ 0 2147483647) = some 361947764 ∧
    exceptVal (range_claimed 10 ⟨7009800821677620407, 3⟩ 0 2147483647) = some 1690388424 ∧
    (361947764 : Int) ≠ 1690388424 :=
  ⟨rfl, rfl, rfl, by decide⟩

/-- C1 (amended): for every min < max within int32 bounds other than the
full-range pair (-2^31, 2^31 - 1), zrand_range and zrand_rng_range follow
exactly the specified rejection-sampling algorithm with the bucket size the
code uses: span = max - min + 1, bucket = (2^32 - 1) / span (not 2^32 / span),
limit = bucket * span, draw 32-bit values repeatedly rejecting every draw
>= limit, result min + (first accepted draw) / bucket. -/
theorem claim_C1_range_follows_rejection_algorithm (fuel : Nat) (rng : zrand_rng)
    (mn mx : Int) (h1 : -2 ^ 31 ≤ mn) (h2 : mx ≤ 2 ^ 31 - 1) (h3 : mn < mx)
    (h4 : ¬(mn = -2 ^ 31 ∧ mx = 2 ^ 31 - 1)) :
    zrand_range fuel rng mn mx = range_ref fuel rng mn mx ∧
    zrand_rng_range fuel rng mn mx = range_ref fuel rng mn mx :=
  ⟨zrand_range_eq_ref h1 h2 h3 h4,
   (zrand_rng_range_eq fuel rng mn mx).trans (zrand_range_eq_ref h1 h2 h3 h4)⟩

/-- Witness for the amended C1 at fuel 1, state (0, 1), min 0, max 1. -/
theorem claim_C1_witness :
    (-2 ^ 31 ≤ (0 : Int)) ∧ ((1 : Int) ≤ 2 ^ 31 - 1) ∧ ((0 : Int) < 1) ∧
    ¬((0 : Int) = -2 ^ 31 ∧ (1 : Int) = 2 ^ 31 - 1) ∧
    (zrand_range 1 ⟨0, 1⟩ 0 1 = range_ref 1 ⟨0, 1⟩ 0 1 ∧
     zrand_rng_range 1 ⟨0, 1⟩ 0 1 = range_ref 1 ⟨0, 1⟩ 0 1) :=
  ⟨by norm_num, by norm_num, by norm_num, by norm_num,
   claim_C1_range_follows_rejection_algorithm 1 ⟨0, 1⟩ 0 1 (by norm_num) (by norm_num)
     (by norm_num) (by norm_num)⟩

/-- C2: min = -2^31 < max = 2^31 - 1 is a valid bounded-range input for which
the computed span (uint32_t)(max - min) + 1 wraps to 0, and both zrand_range
and zrand_rng_range then hit the guarded-division error branch of the
embedding (a division by zero in the C code), for every generator state and
every fuel. -/
theorem claim_C2_range_div_by_zero (fuel : Nat) (rng : zrand_rng) :
    (-2 ^ 31 : Int) < 2 ^ 31 - 1 ∧
    (toNat32 ((2 ^ 31 - 1 : Int) - (-2 ^ 31 : Int)) + 1) % 2 ^ 32 = 0 ∧
    zrand_range fuel rng (-2 ^ 31) (2 ^ 31 - 1) = .error .divByZero ∧
    zrand_rng_range fuel rng (-2 ^ 31) (2 ^ 31 - 1) = .error .divByZero := by
  refine ⟨by norm_num, by decide, ?_, ?_⟩
  · simp only [zrand_range]
    rw [if_neg (by norm_num), if_pos (by decide)]
  · simp only [zrand_rng_range]
    rw [if_neg (by norm_num), if_pos (by decide)]

/-- C3 (failing input for the code_bug): at min = -2^31, max = 2^31 - 1 the
spec's precondition min <= max holds, yet the code divides by zero instead of
returning a value in [min, max]. -/
theorem claim_C3_range_in_bounds_failing_input :
    (-2147483648 : Int) ≤ 2147483647 ∧
    zrand_range 1 ⟨0, 1⟩ (-2147483648) 2147483647 = .error .divByZero ∧
    zrand_rng_range 1 ⟨0, 1⟩ (-2147483648) 2147483647 = .error .divByZero :=
  ⟨by norm_num, rfl, rfl⟩

/-- C4: for min >= max both bounded-range operations return min immediately,
without signalling an error and without touching the generator state. -/
theorem claim_C4_degenerate_range_returns_min (fuel : Nat) (rng : zrand_rng)
    (mn mx : Int) (h : mx ≤ mn) :
    zrand_range fuel rng mn mx = .ok (mn, rng) ∧
    zrand_rng_range fuel rng mn mx = .ok (mn, rng) := by
  constructor
  · simp only [zrand_range]
    rw [if_pos h]
  · simp only [zrand_rng_range]
    rw [if_pos h]

/-- Witness for C4: range(5, 5) = 5 with the state unchanged. -/
theorem claim_C4_witness :
    ((5 : Int) ≤ 5) ∧ zrand_range 3 ⟨0, 1⟩ 5 5 = .ok (5, ⟨0, 1⟩) ∧
    zrand_rng_range 3 ⟨0, 1⟩ 5 5 = .ok (5, ⟨0, 1⟩) :=
  ⟨le_refl 5, (claim_C4_degenerate_range_returns_min 3 ⟨0, 1⟩ 5 5 (le_refl 5)).1,
   (claim_C4_degenerate_range_returns_min 3 ⟨0, 1⟩ 5 5 (le_refl 5)).2⟩

/-- C5: one PCG draw advances the state to
old * 6364136223846793005 + (increment | 1) modulo 2^64, keeps the increment,
and returns the 32-bit rotate-right of xorshifted = ((old >> 18) ^ old) >> 27
(truncated to 32 bits) by rotation = old >> 59. -/
theorem claim_C5_pcg32_step (rng : zrand_rng) (hs : rng.state < 2 ^ 64) :
    zrand__pcg32 rng =
      (rotr32 ((((rng.state >>> 18) ^^^ rng.state) >>> 27) % 2 ^ 32) (rng.state >>> 59),
       { state := (rng.state * 6364136223846793005 + (rng.inc ||| 1)) % 2 ^ 64,
         inc := rng.inc }) :=
  zrand__pcg32_spec rng hs

/-- Witness for C5 at the concrete state (42, 7). -/
theorem claim_C5_witness :
    (42 : Nat) < 2 ^ 64 ∧
    zrand__pcg32 ⟨42, 7⟩ =
      (rotr32 ((((42 >>> 18) ^^^ 42) >>> 27) % 2 ^ 32) (42 >>> 59),
       { state := (42 * 6364136223846793005 + (7 ||| 1)) % 2 ^ 64, inc := 7 }) :=
  ⟨by norm_num, claim_C5_pcg32_step ⟨42, 7⟩ (by norm_num)⟩

/-- C6: after initialization the increment is (seq << 1) | 1 (mod 2^64), hence
odd, for every seed and seq including zero; and a draw never changes the
increment field (only state is mutated). -/
theorem claim_C6_increment_odd_and_fixed (seed seq : Nat) :
    (zrand_rng_init seed seq).inc = ((seq <<< 1) ||| 1) % 2 ^ 64 ∧
    (zrand_rng_init seed seq).inc % 2 = 1 ∧
    (∀ rng : zrand_rng, (zrand__pcg32 rng).2.inc = rng.inc) ∧
    (∀ rng : zrand_rng, (zrand_rng_u64 rng).2.inc = rng.inc) :=
  ⟨zrand_rng_init_inc seed seq, zrand_rng_init_inc_odd seed seq,
   fun _ => rfl, fun _ => rfl⟩

/-- C7: for every generator state, zrand_uuid writes 36 visible characters and
a NUL terminator; hyphens sit exactly at indices 8, 13, 18, 23, every other
character is a lowercase hex digit, index 14 is '4' and index 19 is one of
'8', '9', 'a', 'b'. -/
theorem claim_C7_uuid_format (rng : zrand_rng) :
    let u := (zrand_uuid rng).1
    u.length = 37 ∧ u.getD 36 ' ' = Char.ofNat 0 ∧ u.getD 14 ' ' = '4' ∧
    u.getD 19 ' ' ∈ (['8', '9', 'a', 'b'] : List Char) ∧
    ∀ j : Nat, j < 36 → ((u.getD j ' ' = '-' ↔ (j = 8 ∨ j = 13 ∨ j = 18 ∨ j = 23)) ∧
      (u.getD j ' ' = '-' ∨ u.getD j ' ' ∈ HEXCHARS)) :=
  uuid_fmt_props (fun i => (zrand_bytes 16 rng).1.getD i 0)

/-- Witness for C7 at the concrete state (12345, 67). -/
theorem claim_C7_witness :
    (zrand_uuid ⟨12345, 67⟩).1.getD 14 ' ' = '4' ∧
    (8 < 36 ∧ (zrand_uuid ⟨12345, 67⟩).1.getD 8 ' ' = '-') :=
  ⟨(claim_C7_uuid_format ⟨12345, 67⟩).2.2.1,
   by norm_num,
   ((claim_C7_uuid_format ⟨12345, 67⟩).2.2.2.2 8 (by norm_num)).1.mpr (Or.inl rfl)⟩

/-- C8: zrand_f32 returns (Draw32 >> 8) * 2^-24 and zrand_f64 / zrand_rng_f64
return (Draw64 >> 11) * 2^-53; each value lies in [0, 1) and never reaches 1
(the arithmetic is exact over the rationals, see the definitions). -/
theorem claim_C8_floats_unit_interval (rng : zrand_rng) :
    ((zrand_f32 rng).1 = (((zrand_u32 rng).1 >>> 8 : Nat) : ℚ) * (1 / 2 ^ 24) ∧
      0 ≤ (zrand_f32 rng).1 ∧ (zrand_f32 rng).1 < 1) ∧
    ((zrand_f64 rng).1 = (((zrand_u64 rng).1 >>> 11 : Nat) : ℚ) * (1 / 2 ^ 53) ∧
      0 ≤ (zrand_f64 rng).1 ∧ (zrand_f64 rng).1 < 1) ∧
    ((zrand_rng_f64 rng).1 = (((zrand_rng_u64 rng).1 >>> 11 : Nat) : ℚ) * (1 / 2 ^ 53) ∧
      0 ≤ (zrand_rng_f64 rng).1 ∧ (zrand_rng_f64 rng).1 < 1) := by
  have h32 : (zrand_u32 rng).1 >>> 8 < 16777216 := by
    have h : (zrand_u32 rng).1 < 2 ^ 32 := zrand__pcg32_fst_lt rng
    rw [Nat.shiftRight_eq_div_pow]
    omega
  have h64 : (zrand_u64 rng).1 >>> 11 < 9007199254740992 := by
    have h := zrand_u64_fst_lt rng
    rw [Nat.shiftRight_eq_div_pow]
    omega
  have hu1 := scaled_unit_interval 16777216 (by norm_num) h32
  have hu2 := scaled_unit_interval 9007199254740992 (by norm_num) h64
  refine ⟨⟨by norm_num [zrand_f32], ?_, ?_⟩, ⟨by norm_num [zrand_f64], ?_, ?_⟩,
    ⟨by norm_num [zrand_rng_f64], ?_, ?_⟩⟩
  · exact hu1.1
  · exact hu1.2
  · exact hu2.1
  · exact hu2.2
  · exact hu2.1
  · exact hu2.2

/-- C9: whenever zrand_shuffle returns, the multiset of elements of the result
equals the multiset of elements of the input (shuffle is a permutation), for
every element type, sequence and generator state; sequences of length <= 1 are
returned untouched with the state unchanged. -/
theorem claim_C9_shuffle_is_permutation {α : Type _} (fuel : Nat) (l : List α)
    (rng : zrand_rng) :
    (∀ (l' : List α) (rng' : zrand_rng),
      zrand_shuffle fuel l rng = .ok (l', rng') → (l' : Multiset α) = (l : Multiset α)) ∧
    (l.length ≤ 1 → zrand_shuffle fuel l rng = .ok (l, rng)) := by
  constructor
  · intro l' rng' h
    simp only [zrand_shuffle] at h
    by_cases hlen : l.length ≤ 1
    · rw [if_pos hlen] at h
      simp only [Except.ok.injEq, Prod.mk.injEq] at h
      obtain ⟨rfl, rfl⟩ := h
      rfl
    · rw [if_neg hlen] at h
      exact Multiset.coe_eq_coe.mpr (zrand_shuffle_loop_perm h)
  · intro hlen
    simp only [zrand_shuffle]
    rw [if_pos hlen]

/-- Witness for C9: a concrete 3-element shuffle and a singleton. -/
theorem claim_C9_witness :
    (([2, 1, 3] : List Nat) : Multiset Nat) = (([1, 2, 3] : List Nat) : Multiset Nat) ∧
    ([5] : List Nat).length ≤ 1 ∧
    zrand_shuffle 5 [5] ⟨0, 1⟩ = .ok ([5], ⟨0, 1⟩) :=
  ⟨(claim_C9_shuffle_is_permutation 5 [1, 2, 3] ⟨7009800821677620407, 3⟩).1 [2, 1, 3]
      ⟨7937115272706796313, 3⟩ rfl,
   by norm_num,
   (claim_C9_shuffle_is_permutation 5 [5] ⟨0, 1⟩).2 (by norm_num)⟩

/-- C10: zrand_choice on an empty sequence returns the NULL sentinel without
drawing from (or changing) the generator state; on a non-empty sequence it
returns the element index produced by zrand_range(0, nmemb - 1), which is
always in bounds. -/
theorem claim_C10_choice_spec (fuel nmemb : Nat) (rng : zrand_rng) :
    (nmemb = 0 → zrand_choice fuel rng nmemb = .ok (none, rng)) ∧
    (0 < nmemb → nmemb < 2 ^ 31 →
      (∀ (v : Int) (rng' : zrand_rng),
        zrand_range fuel rng 0 ((nmemb : Int) - 1) = .ok (v, rng') →
          zrand_choice fuel rng nmemb = .ok (some v.toNat, rng')) ∧
      (∀ (k : Nat) (rng' : zrand_rng),
        zrand_choice fuel rng nmemb = .ok (some k, rng') → k < nmemb)) := by
  constructor
  · intro h
    simp only [zrand_choice]
    rw [if_pos h]
  · intro h1 h2
    have harg : toInt32 (nmemb % 2 ^ 32 + 2 ^ 32 - 1) = (nmemb : Int) - 1 :=
      toInt32_choice_arg h1 h2
    constructor
    · intro v rng' hr
      obtain ⟨hv0, hv1⟩ := zrand_range_ok_bounds (by norm_num) (by omega) (by omega)
        (by norm_num) hr
      simp only [zrand_choice]
      rw [if_neg (by omega), harg, hr]
      have hmod : (v % (18446744073709551616 : Int)).toNat = v.toNat := by omega
      show Except.ok (some (v % (18446744073709551616 : Int)).toNat, rng') =
        Except.ok (some v.toNat, rng')
      rw [hmod]
    · intro k rng' hc
      simp only [zrand_choice] at hc
      rw [if_neg (by omega), harg] at hc
      cases hr : zrand_range fuel rng 0 ((nmemb : Int) - 1) with
      | error e => rw [hr] at hc; simp at hc
      | ok p =>
        obtain ⟨v, r2⟩ := p
        rw [hr] at hc
        obtain ⟨hv0, hv1⟩ := zrand_range_ok_bounds (by norm_num) (by omega) (by omega)
          (by norm_num) hr
        simp only [Except.ok.injEq, Prod.mk.injEq, Option.some.injEq] at hc
        omega

/-- Witness for C10: the empty case and a concrete 3-element choice. -/
theorem claim_C10_witness :
    zrand_choice 1 ⟨0, 1⟩ 0 = .ok (none, ⟨0, 1⟩) ∧
    (0 < 3 ∧ 3 < 2 ^ 31) ∧
    zrand_choice 5 ⟨7009800821677620407, 3⟩ 3 =
      .ok (some 2, ⟨12282511421362615598, 3⟩) :=
  ⟨(claim_C10_choice_spec 1 0 ⟨0, 1⟩).1 rfl,
   ⟨by norm_num, by norm_num⟩,
   ((claim_C10_choice_spec 5 3 ⟨7009800821677620407, 3⟩).2 (by norm_num) (by norm_num)).1 2
     ⟨12282511421362615598, 3⟩ rfl⟩
